import Mathlib

/-! Shallow embedding of the `saadmk11/blog` utilities.

`src/main.py` defines a mkdocs-macros plugin exposing
`recent_posts(pages, limit=None)`: it scans the page collection, parses each
page's front matter (delegated to `mkdocs.utils.meta`, an external parser),
keeps the mappings whose `type` field equals `"post"`, stores the page's
resolved output url under the `url` key, sorts the retained mappings by their
`date` field descending with Python's stable sort, and truncates to `limit`
elements when `limit` is truthy.

`src/scripts/new_post.py` is a scaffolding script: a `Post` dataclass with a
`__post_init__` normalisation step, a `slugify` helper, a front-matter
template, and a `main` that writes the templated file.

Front-matter mappings are embedded as association lists from string keys to
`Value`s.  The external parser is the model boundary: a `Page` carries the
parsed metadata of the file at `page.file.abs_src_path` together with
`page.file.url`.  Date objects produced by the YAML parser are embedded as
integers (only their comparison order matters); string values compare
lexicographically, and the `TypeError` Python raises when the sort compares
a string with a date is modelled by failing on key lists that mix the two
kinds.  `slugify` is modelled over lists of code points because Python's
`re` and `str.lower` operate on code points; the character classification is
faithful on a declared domain — ASCII plus the uncased CJK Unified
Ideographs URO block — and every statement stays inside that domain. -/

/-- Value stored under a front-matter key.  The parser used by
`mkdocs.utils.meta` produces strings and, for `date` keys, date objects;
dates are embedded as `Int` (e.g. days since an epoch), which preserves
exactly their comparison order. -/
inductive Value where
  | str (s : String)
  | date (d : Int)
deriving DecidableEq

/-- Front-matter mapping: insertion-ordered string-keyed dictionary, embedded
as an association list with unique keys (Python `dict` semantics). -/
abbrev Metadata := List (String × Value)

/-- Page handle as seen by the macro: the parsed front matter of the file at
`page.file.abs_src_path`, and the resolved output url `page.file.url`. -/
structure Page where
  metadata : Metadata
  url : String
deriving DecidableEq

/-- Embedding of `metadata.get(key)` / `metadata[key]` lookup: first binding
of the key, `none` when absent. -/
def dictGet (m : Metadata) (k : String) : Option Value :=
  match m with
  | [] => none
  | (k', v) :: rest => if k' = k then some v else dictGet rest k

/-- Embedding of `metadata[key] = value`: Python `dict` assignment replaces
the value in place when the key exists (keeping its position) and appends a
new binding otherwise. -/
def dictSet (m : Metadata) (k : String) (v : Value) : Metadata :=
  match m with
  | [] => [(k, v)]
  | (k', v') :: rest => if k' = k then (k, v) :: rest else (k', v') :: dictSet rest k v

/-- The loop body of `recent_posts` (`src/main.py` lines 7-12): pages whose
metadata has `type == 'post'` are retained, with `metadata['url']` set to
`page.file.url`; every other page is skipped. -/
def retained (pages : List Page) : List Metadata :=
  pages.filterMap fun p =>
    if dictGet p.metadata "type" = some (Value.str "post") then
      some (dictSet p.metadata "url" (Value.str p.url))
    else none

/-- Key extraction performed by `posts.sort(key=lambda x: x["date"], ...)`:
CPython materialises the key of every element before comparing, so a mapping
without a `date` key raises `KeyError` before any comparison happens.
`none` models that exception. -/
def decorate : List Metadata → Option (List (Value × Metadata))
  | [] => some []
  | m :: rest =>
      match dictGet m "date", decorate rest with
      | some d, some l => some ((d, m) :: l)
      | _, _ => none

/-- Comparison on front-matter values used as sort keys, as Python compares
them: strings lexicographically by code point, dates chronologically.  A
mixed `str`/`date` comparison raises `TypeError` in Python; `recent_posts`
models that by failing on key lists that mix the two kinds (see
`keysComparable`), so the sort itself only ever compares like with like.
The two mixed arms below merely make the order total on `Value` (they are
never exercised on a comparable key list). -/
def valueLe : Value → Value → Bool
  | Value.str a, Value.str b => decide (a ≤ b)
  | Value.str _, Value.date _ => true
  | Value.date _, Value.str _ => false
  | Value.date a, Value.date b => decide (a ≤ b)

/-- Whether Python's sort succeeds on this key list.  CPython compares every
element with some other element (run detection and binary insertion both
compare each element against earlier ones), so a key list mixing strings and
dates always raises `TypeError`, whatever the arrangement, while an
all-string or all-date key list sorts without error. -/
def keysComparable (ks : List Value) : Bool :=
  ks.all (fun v => match v with | Value.str _ => true | Value.date _ => false) ||
  ks.all (fun v => match v with | Value.str _ => false | Value.date _ => true)

/-- Order in which `posts.sort(key=lambda x: x["date"], reverse=True)` emits
decorated elements: `a` may precede `b` exactly when `a`'s key is at least
`b`'s key. -/
def keyRel (a b : Value × Metadata) : Prop := valueLe b.1 a.1 = true

instance : DecidableRel keyRel := fun _ _ => Bool.decEq _ _

/-- Truthiness of the `limit` argument in `if limit:`: Python's `None` and
`0` are falsy, every positive integer is truthy. -/
def limitTruthy : Option Nat → Bool
  | none => false
  | some n => n != 0

/-- Embedding of `recent_posts(pages, limit=None)` from `src/main.py`.
A `KeyError` raised by the key lambda, and a `TypeError` raised by a
comparison of mixed-kind keys, are the `error` branches; both propagate to
the caller.  On comparable keys Python's `list.sort` is a stable sort, and a
stable sort by a total preorder has a unique result, so the stable
`List.insertionSort` computes exactly the list Timsort produces. -/
def recent_posts (pages : List Page) (limit : Option Nat) : Except String (List Metadata) :=
  match decorate (retained pages) with
  | none => Except.error "KeyError: date"
  | some keyed =>
      if keysComparable (keyed.map Prod.fst) then
        let posts := (List.insertionSort keyRel keyed).map Prod.snd
        Except.ok (if limitTruthy limit then posts.take (limit.getD 0) else posts)
      else Except.error "TypeError: unorderable date values"

/-- Number of post-typed pages in the input (the `count_of_posts` of the
specification). -/
def postCount (pages : List Page) : Nat := (retained pages).length

/-! Concrete pages used by the scenario claim and the witnesses.  Dates are
the integers `yyyymmdd`, an order-preserving image of calendar dates. -/

def pageJan : Page :=
  ⟨[("type", Value.str "post"), ("title", Value.str "jan"), ("date", Value.date 20230101)],
   "posts/jan/"⟩

def pageJun : Page :=
  ⟨[("type", Value.str "post"), ("title", Value.str "jun"), ("date", Value.date 20230601)],
   "posts/jun/"⟩

def pageMar : Page :=
  ⟨[("type", Value.str "post"), ("title", Value.str "mar"), ("date", Value.date 20230301)],
   "posts/mar/"⟩

/-- A page with no `type` key at all (e.g. the index page). -/
def pageIdx : Page := ⟨[("title", Value.str "index")], "index/"⟩

/-- A post page whose front matter lacks a `date` key. -/
def pageNoDate : Page := ⟨[("type", Value.str "post"), ("title", Value.str "draft")], "draft/"⟩

/-- A post page whose raw front matter already carries a (stale) `url` key. -/
def pageRawUrl : Page :=
  ⟨[("type", Value.str "post"), ("date", Value.date 20230101), ("url", Value.str "stale")],
   "fresh/"⟩

def mJun : Metadata :=
  [("type", Value.str "post"), ("title", Value.str "jun"), ("date", Value.date 20230601),
   ("url", Value.str "posts/jun/")]

def mMar : Metadata :=
  [("type", Value.str "post"), ("title", Value.str "mar"), ("date", Value.date 20230301),
   ("url", Value.str "posts/mar/")]

def mJan : Metadata :=
  [("type", Value.str "post"), ("title", Value.str "jan"), ("date", Value.date 20230101),
   ("url", Value.str "posts/jan/")]


/-- The metadata of `pageRawUrl` after the macro overwrote its `url` key in
place with the resolved output url. -/
def mFresh : Metadata :=
  [("type", Value.str "post"), ("date", Value.date 20230101), ("url", Value.str "fresh/")]

/-! Embedding of `src/scripts/new_post.py`. -/

/-- Word characters of Python's Unicode-aware `\w` (the complement of `\W`)
on the code points this development uses: the ASCII word characters
(letters, digits, underscore) together with the CJK Unified Ideographs URO
block U+4E00..U+9FA5 (19968..40869), every point of which is an (uncased)
letter and hence a word character in Python.  Code points outside ASCII and
this block are outside the modelled domain, and no statement below
quantifies over them. -/
def isWordChar (c : Nat) : Bool :=
  decide ((97 ≤ c ∧ c ≤ 122) ∨ (65 ≤ c ∧ c ≤ 90) ∨ (48 ≤ c ∧ c ≤ 57) ∨ c = 95 ∨
    (19968 ≤ c ∧ c ≤ 40869))

/-- Embedding of `str.lower` on the modelled code points: ASCII uppercase
letters shift into lowercase; everything else — ASCII non-letters and the
uncased CJK ideographs — is unchanged, exactly as in Python. -/
def lowerCode (c : Nat) : Nat := if 65 ≤ c ∧ c ≤ 90 then c + 32 else c

/-- Embedding of `re.sub(r"\W+", "-", s)`: every maximal run of non-word
characters is replaced by one hyphen (code point 45).  `inRun` records
whether the scan stands inside such a run (its hyphen already emitted). -/
def subNonWord (inRun : Bool) : List Nat → List Nat
  | [] => []
  | c :: cs =>
      if isWordChar c then c :: subNonWord false cs
      else if inRun then subNonWord true cs
      else 45 :: subNonWord true cs

/-- Embedding of `str.strip("-")`: hyphens are dropped from both ends. -/
def stripHyphens (l : List Nat) : List Nat :=
  ((l.dropWhile fun c => c == 45).reverse.dropWhile fun c => c == 45).reverse

/-- Embedding of `slugify` from `src/scripts/new_post.py`:
`re.sub(r"\W+", "-", text.lower()).strip("-")` over code points. -/
def slugify (l : List Nat) : List Nat := stripHyphens (subNonWord false (l.map lowerCode))

/-- String form of `slugify`, converting through code points. -/
def slugifyStr (s : String) : String :=
  String.mk ((slugify (s.data.map Char.toNat)).map Char.ofNat)

/-- Calendar date, the structural embedding of `datetime.date`. -/
structure Date where
  year : Nat
  month : Nat
  day : Nat
deriving DecidableEq

def pad2 (n : Nat) : String := if n < 10 then "0" ++ toString n else toString n

def pad4 (n : Nat) : String :=
  if n < 10 then "000" ++ toString n
  else if n < 100 then "00" ++ toString n
  else if n < 1000 then "0" ++ toString n
  else toString n

/-- ISO rendering `YYYY-MM-DD`, the form `yaml.dump` uses for dates. -/
def dateIso (d : Date) : String := pad4 d.year ++ "-" ++ pad2 d.month ++ "-" ++ pad2 d.day

def monthName : Nat → String
  | 1 => "January"
  | 2 => "February"
  | 3 => "March"
  | 4 => "April"
  | 5 => "May"
  | 6 => "June"
  | 7 => "July"
  | 8 => "August"
  | 9 => "September"
  | 10 => "October"
  | 11 => "November"
  | 12 => "December"
  | _ => ""

/-- Embedding of `date.strftime("%B %d, %Y")` (month name, zero-padded day,
year). -/
def fmtDate (d : Date) : String :=
  monthName d.month ++ " " ++ pad2 d.day ++ ", " ++ toString d.year

/-- The `Post` dataclass of `src/scripts/new_post.py`.  Field types follow
the runtime values: `main` passes `args.tags`, which is Python `None` when
`--tags` is omitted, so `tags` is an optional list despite the declared
`list[str]`; `date` is optional until `__post_init__` fills it. -/
structure Post where
  title : String
  description : String
  date : Option Date
  tags : Option (List String)
  type : String
  hide : List String
deriving DecidableEq

/-- Embedding of `Post.__post_init__`, with the ambient current date as an
explicit argument: `self.date = self.date or datetime.date.today()` and
`self.hide = self.hide or ["navigation"]` (`None` and the empty list are
falsy; `tags` is not normalised). -/
def postInit (today : Date) (p : Post) : Post :=
  { p with
    date := some (p.date.getD today),
    hide := if p.hide = [] then ["navigation"] else p.hide }

/-- Rendering of a YAML block-sequence field, as `yaml.dump` prints the
`hide` and `tags` lists; an empty list prints inline as `[]`. -/
def yamlListLines (key : String) (l : List String) : List String :=
  match l with
  | [] => [key ++ ": []"]
  | _ => (key ++ ":") :: l.map (fun s => "- " ++ s)

/-- Lines of `yaml.dump(asdict(post))`: keys in sorted order (`date`,
`description`, `hide`, `tags`, `title`, `type`), Python `None` printed as
`null`, dates in ISO form.  Quoting of unusual scalar strings is the
external YAML emitter's concern and is not modelled: scalars print plain. -/
def yamlLines (p : Post) : List String :=
  (match p.date with
   | none => ["date: null"]
   | some d => ["date: " ++ dateIso d])
  ++ ["description: " ++ p.description]
  ++ yamlListLines "hide" p.hide
  ++ (match p.tags with
      | none => ["tags: null"]
      | some ts => yamlListLines "tags" ts)
  ++ ["title: " ++ p.title]
  ++ ["type: " ++ p.type]

/-- Embedding of `Post.to_yaml`: `yaml.dump(asdict(self))`, which ends every
line, the last included, with a newline. -/
def to_yaml (p : Post) : String := String.intercalate "\n" (yamlLines p) ++ "\n"

/-- The module-level `TEMPLATE` of `src/scripts/new_post.py` after
`.format(...)` substitution (the `{metadata}` slot receives `to_yaml`,
which already ends with its own newline). -/
def renderTemplate (title post_fmt_date metadata : String) : String :=
  "---\n" ++ metadata ++ "\n---\n\n# " ++ title ++ " <br><small>" ++ post_fmt_date ++
    "</small>\n\n## Introduction\n\n\n## References\n\n\n## Conclusion\n"

/-- Parsed command-line arguments of `scripts/new_post.py`: `--tags` is
Python `None` when omitted (`nargs="+"` otherwise yields a non-empty list)
and `--date` is `None` when omitted. -/
structure Args where
  title : String
  description : String
  tags : Option (List String)
  date : Option Date

/-- The `Post` value `main` constructs: keyword arguments `title`,
`description`, `tags`, `date`; `type` and `hide` take their dataclass
defaults (`"post"` and a fresh empty list), after which `__post_init__`
runs. -/
def mainPost (args : Args) (today : Date) : Post :=
  postInit today
    { title := args.title, description := args.description,
      date := args.date, tags := args.tags, type := "post", hide := [] }

/-- Pure embedding of `main` on parsed arguments: the path of the file it
opens for writing and the exact string it writes there. -/
def mainRun (args : Args) (today : Date) : String × String :=
  ("blog/posts/" ++ slugifyStr (mainPost args today).title ++ ".md",
   renderTemplate (mainPost args today).title
     (fmtDate ((mainPost args today).date.getD today))
     (to_yaml (mainPost args today)))


/-! Dictionary lemmas. -/

/-- Assignment makes the assigned key read back the assigned value. -/
theorem dictGet_dictSet_self (m : Metadata) (k : String) (v : Value) :
    dictGet (dictSet m k v) k = some v := by
  induction m with
  | nil => simp [dictGet, dictSet]
  | cons kv rest ih =>
      obtain ⟨k0, v0⟩ := kv
      by_cases h : k0 = k
      · subst h; simp [dictGet, dictSet]
      · simp [dictGet, dictSet, h, ih]

/-- Assignment leaves every other key unchanged. -/
theorem dictGet_dictSet_ne (m : Metadata) {k k' : String} (v : Value) (h : k' ≠ k) :
    dictGet (dictSet m k v) k' = dictGet m k' := by
  induction m with
  | nil => simp [dictGet, dictSet, Ne.symm h]
  | cons kv rest ih =>
      obtain ⟨k0, v0⟩ := kv
      by_cases h0 : k0 = k
      · subst h0; simp [dictGet, dictSet, Ne.symm h]
      · simp [dictGet, dictSet, h0, ih]

/-- Characterisation of the mappings the filtering loop retains. -/
theorem mem_retained_iff {pages : List Page} {m : Metadata} :
    m ∈ retained pages ↔
      ∃ p, p ∈ pages ∧ dictGet p.metadata "type" = some (Value.str "post") ∧
        m = dictSet p.metadata "url" (Value.str p.url) := by
  simp only [retained, List.mem_filterMap]
  constructor
  · rintro ⟨p, hp, hf⟩
    by_cases hc : dictGet p.metadata "type" = some (Value.str "post")
    · rw [if_pos hc] at hf
      exact ⟨p, hp, hc, (Option.some_inj.mp hf).symm⟩
    · rw [if_neg hc] at hf
      cases hf
  · rintro ⟨p, hp, hc, rfl⟩
    exact ⟨p, hp, by rw [if_pos hc]⟩

/-! Key-extraction lemmas. -/

/-- A successful key extraction pairs every mapping with its `date` value and
keeps the mappings in order. -/
theorem decorate_some {l : List Metadata} {kl : List (Value × Metadata)}
    (h : decorate l = some kl) :
    kl.map Prod.snd = l ∧ ∀ pr ∈ kl, dictGet pr.2 "date" = some pr.1 := by
  induction l generalizing kl with
  | nil =>
      obtain rfl : [] = kl := Option.some_inj.mp h
      simp
  | cons m rest ih =>
      unfold decorate at h
      cases hg : dictGet m "date" with
      | none => rw [hg] at h; cases h
      | some d =>
          rw [hg] at h
          cases hr : decorate rest with
          | none => rw [hr] at h; cases h
          | some krest =>
              rw [hr] at h
              obtain rfl : (d, m) :: krest = kl := Option.some_inj.mp h
              obtain ⟨h1, h2⟩ := ih hr
              refine ⟨by simp [h1], ?_⟩
              intro pr hpr
              rcases List.mem_cons.mp hpr with rfl | hmem
              · exact hg
              · exact h2 pr hmem

/-- Key extraction raises `KeyError` exactly when some retained mapping lacks
a `date` key. -/
theorem decorate_none_iff {l : List Metadata} :
    decorate l = none ↔ ∃ m ∈ l, dictGet m "date" = none := by
  induction l with
  | nil => simp [decorate]
  | cons m rest ih =>
      constructor
      · intro h
        unfold decorate at h
        cases hg : dictGet m "date" with
        | none => exact ⟨m, List.mem_cons_self m rest, hg⟩
        | some d =>
            rw [hg] at h
            cases hr : decorate rest with
            | none =>
                obtain ⟨m', hm', hg'⟩ := ih.mp hr
                exact ⟨m', List.mem_cons_of_mem _ hm', hg'⟩
            | some krest => rw [hr] at h; cases h
      · rintro ⟨m', hm', hg'⟩
        unfold decorate
        rcases List.mem_cons.mp hm' with rfl | hmem
        · rw [hg']
        · cases hg : dictGet m "date" with
          | none => rfl
          | some d => rw [ih.mpr ⟨m', hmem, hg'⟩]

/-! Order lemmas for the sort key. -/

theorem valueLe_total (a b : Value) : valueLe a b = true ∨ valueLe b a = true := by
  cases a <;> cases b <;> simp [valueLe] <;> apply le_total

theorem valueLe_trans {a b c : Value} (h1 : valueLe a b = true) (h2 : valueLe b c = true) :
    valueLe a c = true := by
  cases a <;> cases b <;> cases c <;> simp [valueLe] at * <;> exact le_trans h1 h2

instance : IsTotal (Value × Metadata) keyRel := ⟨fun a b => valueLe_total b.1 a.1⟩

instance : IsTrans (Value × Metadata) keyRel := ⟨fun _ _ _ h1 h2 => valueLe_trans h2 h1⟩

/-! Unfolding lemmas for `recent_posts`. -/

theorem recent_posts_err_of_decorate {pages : List Page} {limit : Option Nat}
    (hd : decorate (retained pages) = none) :
    recent_posts pages limit = Except.error "KeyError: date" := by
  unfold recent_posts
  rw [hd]

theorem recent_posts_ok_of_decorate {pages : List Page} {limit : Option Nat}
    {kl : List (Value × Metadata)} (hd : decorate (retained pages) = some kl)
    (hc : keysComparable (kl.map Prod.fst) = true) :
    recent_posts pages limit =
      Except.ok
        (if limitTruthy limit then
          ((List.insertionSort keyRel kl).map Prod.snd).take (limit.getD 0)
        else (List.insertionSort keyRel kl).map Prod.snd) := by
  unfold recent_posts
  rw [hd]
  dsimp only
  rw [if_pos hc]

theorem recent_posts_err_of_incomparable {pages : List Page} {limit : Option Nat}
    {kl : List (Value × Metadata)} (hd : decorate (retained pages) = some kl)
    (hc : keysComparable (kl.map Prod.fst) = false) :
    recent_posts pages limit = Except.error "TypeError: unorderable date values" := by
  unfold recent_posts
  rw [hd]
  dsimp only
  rw [if_neg (by rw [hc]; exact Bool.false_ne_true)]

/-- Elimination form: a successful call had comparable keys and returns a
truncation of the stably sorted decorated list. -/
theorem recent_posts_ok_elim {pages : List Page} {limit : Option Nat} {l : List Metadata}
    (h : recent_posts pages limit = Except.ok l) :
    ∃ kl, decorate (retained pages) = some kl ∧
      keysComparable (kl.map Prod.fst) = true ∧
      l = (if limitTruthy limit then
            ((List.insertionSort keyRel kl).map Prod.snd).take (limit.getD 0)
          else (List.insertionSort keyRel kl).map Prod.snd) := by
  cases hd : decorate (retained pages) with
  | none =>
      rw [recent_posts_err_of_decorate hd] at h
      cases h
  | some kl =>
      cases hc : keysComparable (kl.map Prod.fst) with
      | false =>
          rw [recent_posts_err_of_incomparable hd hc] at h
          cases h
      | true =>
          rw [recent_posts_ok_of_decorate hd hc] at h
          exact ⟨kl, rfl, hc, (Except.ok.inj h).symm⟩

/-- In a sorted decorated list whose keys are all dates, the integer dates
can be read off as a non-increasing list. -/
theorem dates_of_sorted_keyed :
    ∀ kl : List (Value × Metadata),
      (∀ pr ∈ kl, ∃ d : Int, pr.1 = Value.date d) →
      List.Pairwise keyRel kl →
      ∃ ds : List Int, kl.map Prod.fst = ds.map Value.date ∧
        List.Pairwise (fun a b : Int => b ≤ a) ds := by
  intro kl
  induction kl with
  | nil => exact fun _ _ => ⟨[], rfl, List.Pairwise.nil⟩
  | cons pr rest ih =>
      intro hdate hsort
      obtain ⟨hhead, htail⟩ := List.pairwise_cons.mp hsort
      obtain ⟨d0, hd0⟩ := hdate pr (List.mem_cons_self pr rest)
      obtain ⟨ds, hmap, hpair⟩ := ih (fun q hq => hdate q (List.mem_cons_of_mem _ hq)) htail
      refine ⟨d0 :: ds, by simp [hd0, hmap], List.pairwise_cons.mpr ⟨?_, hpair⟩⟩
      intro b hb
      have hbmem : Value.date b ∈ rest.map Prod.fst := by
        rw [hmap]
        exact List.mem_map_of_mem Value.date hb
      obtain ⟨q, hq, hq1⟩ := List.mem_map.mp hbmem
      have hle : valueLe q.1 pr.1 = true := hhead q hq
      rw [hq1, hd0] at hle
      simpa [valueLe] using hle

/-- Reading the `date` key off a decorated list recovers the keys. -/
theorem map_dictGet_date_eq (tkl : List (Value × Metadata))
    (h : ∀ pr ∈ tkl, dictGet pr.2 "date" = some pr.1) :
    (tkl.map Prod.snd).map (fun m => dictGet m "date") = (tkl.map Prod.fst).map some := by
  induction tkl with
  | nil => rfl
  | cons pr rest ih =>
      simp only [List.map_cons]
      rw [h pr (List.mem_cons_self pr rest),
        ih (fun q hq => h q (List.mem_cons_of_mem _ hq))]

/-- Every member of a successful result is one of the retained mappings. -/
theorem mem_of_recent_posts_ok {pages : List Page} {limit : Option Nat} {l : List Metadata}
    (h : recent_posts pages limit = Except.ok l) {m : Metadata} (hm : m ∈ l) :
    m ∈ retained pages := by
  rcases recent_posts_ok_elim h with ⟨kl, hd, -, rfl⟩
  obtain ⟨hsnd, _⟩ := decorate_some hd
  rw [← hsnd]
  have h1 : m ∈ (List.insertionSort keyRel kl).map Prod.snd := by
    split at hm
    · exact List.Sublist.mem hm (List.take_sublist _ _)
    · exact hm
  obtain ⟨pr, hpr, rfl⟩ := List.mem_map.mp h1
  exact List.mem_map_of_mem Prod.snd ((List.mem_insertionSort keyRel).mp hpr)

/-- Length of the full (untruncated) result list. -/
theorem length_sorted_retained {pages : List Page} {kl : List (Value × Metadata)}
    (hd : decorate (retained pages) = some kl) :
    ((List.insertionSort keyRel kl).map Prod.snd).length = postCount pages := by
  have h1 := (decorate_some hd).1
  have h2 : kl.length = (retained pages).length := by
    rw [← h1, List.length_map]
  simp [List.length_insertionSort, h2, postCount]

/-- C1 counterexample: the claim quantifies over every non-negative `N`, but
at `N = 0` the guard `if limit:` is falsy, so no truncation happens: with a
single post page the call returns one entry although
`min 0 count_of_posts = 0`. -/
theorem c1_counterexample :
    recent_posts [pageJun] (some 0) = Except.ok [mJun] ∧
    ¬ (([mJun] : List Metadata).length ≤ min 0 (postCount [pageJun])) :=
  ⟨rfl, by decide⟩

/-- C1 (amended): for every positive `N`, a successful
`recent_posts(pages, limit=N)` returns at most `min N count_of_posts`
entries; `limit=None` returns all posts, and the falsy `limit=0` likewise
performs no truncation and returns all posts. -/
theorem c1_limit_truncation (pages : List Page) :
    (∀ N l, recent_posts pages (some N) = Except.ok l → 1 ≤ N →
      l.length ≤ min N (postCount pages)) ∧
    (∀ l, recent_posts pages none = Except.ok l → l.length = postCount pages) ∧
    (∀ l, recent_posts pages (some 0) = Except.ok l → l.length = postCount pages) := by
  refine ⟨?_, ?_, ?_⟩
  · intro N l h hN
    rcases recent_posts_ok_elim h with ⟨kl, hd, -, rfl⟩
    have ht : limitTruthy (some N) = true := by
      simp only [limitTruthy, ne_eq, bne_iff_ne]
      omega
    rw [if_pos ht]
    simp [List.length_take, length_sorted_retained hd]
  · intro l h
    rcases recent_posts_ok_elim h with ⟨kl, hd, -, rfl⟩
    rw [if_neg (by simp [limitTruthy])]
    exact length_sorted_retained hd
  · intro l h
    rcases recent_posts_ok_elim h with ⟨kl, hd, -, rfl⟩
    rw [if_neg (by simp [limitTruthy])]
    exact length_sorted_retained hd

/-- Witness for `c1_limit_truncation` at a concrete input. -/
theorem c1_limit_truncation_witness :
    ([mJun] : List Metadata).length ≤ min 1 (postCount [pageJun]) :=
  (c1_limit_truncation [pageJun]).1 1 [mJun] rfl (by decide)

/-- C2 (confirmed): when every retained post carries a (comparable) date
value, a successful result reads off a non-increasing list of dates: the
output is sorted by `date` descending. -/
theorem c2_sorted_by_date_desc (pages : List Page) (limit : Option Nat) (l : List Metadata)
    (h : recent_posts pages limit = Except.ok l)
    (hdates : ∀ m ∈ retained pages, ∃ d : Int, dictGet m "date" = some (Value.date d)) :
    ∃ ds : List Int,
      l.map (fun m => dictGet m "date") = ds.map (fun d => some (Value.date d)) ∧
      List.Pairwise (fun a b : Int => b ≤ a) ds := by
  rcases recent_posts_ok_elim h with ⟨kl, hd, -, rfl⟩
  obtain ⟨hsnd, hdate⟩ := decorate_some hd
  set skl := List.insertionSort keyRel kl with hskl
  have hsorted : List.Pairwise keyRel skl := List.sorted_insertionSort keyRel kl
  set tkl := if limitTruthy limit then skl.take (limit.getD 0) else skl with htkl
  have hsub : tkl.Sublist skl := by
    rw [htkl]
    split
    · exact List.take_sublist _ _
    · exact List.Sublist.refl _
  have hl : (if limitTruthy limit then (skl.map Prod.snd).take (limit.getD 0)
             else skl.map Prod.snd) = tkl.map Prod.snd := by
    rw [htkl]
    split
    · rw [← List.map_take]
    · rfl
  rw [hl]
  have htmem : ∀ pr ∈ tkl, pr ∈ kl := fun pr hpr =>
    (List.mem_insertionSort keyRel).mp (List.Sublist.mem hpr hsub)
  have htdate : ∀ pr ∈ tkl, dictGet pr.2 "date" = some pr.1 := fun pr hpr =>
    hdate pr (htmem pr hpr)
  have hint : ∀ pr ∈ tkl, ∃ d : Int, pr.1 = Value.date d := by
    intro pr hpr
    have h2 : pr.2 ∈ retained pages := by
      rw [← hsnd]
      exact List.mem_map_of_mem Prod.snd (htmem pr hpr)
    obtain ⟨d, hd2⟩ := hdates pr.2 h2
    rw [htdate pr hpr] at hd2
    exact ⟨d, Option.some_inj.mp hd2⟩
  obtain ⟨ds, hmap, hpair⟩ :=
    dates_of_sorted_keyed tkl hint (List.Pairwise.sublist hsub hsorted)
  refine ⟨ds, ?_, hpair⟩
  rw [map_dictGet_date_eq tkl htdate, hmap]
  simp [List.map_map, Function.comp]

/-- Witness for `c2_sorted_by_date_desc` at the scenario input. -/
theorem c2_sorted_by_date_desc_witness :
    ∃ ds : List Int,
      ([mJun, mMar] : List Metadata).map (fun m => dictGet m "date") =
        ds.map (fun d => some (Value.date d)) ∧
      List.Pairwise (fun a b : Int => b ≤ a) ds :=
  c2_sorted_by_date_desc [pageJan, pageJun, pageMar, pageIdx] (some 2) [mJun, mMar] rfl
    (by
      have hr : retained [pageJan, pageJun, pageMar, pageIdx] = [mJan, mJun, mMar] := rfl
      rw [hr]
      intro m hm
      simp only [List.mem_cons, List.not_mem_nil, or_false] at hm
      rcases hm with rfl | rfl | rfl
      · exact ⟨20230101, rfl⟩
      · exact ⟨20230601, rfl⟩
      · exact ⟨20230301, rfl⟩)

/-- A page whose `type` is not the string `"post"` contributes nothing to the
retained list. -/
theorem retained_drop_non_post (pages₁ pages₂ : List Page) (q : Page)
    (hq : dictGet q.metadata "type" ≠ some (Value.str "post")) :
    retained (pages₁ ++ q :: pages₂) = retained (pages₁ ++ pages₂) := by
  unfold retained
  have h : (fun p : Page =>
      if dictGet p.metadata "type" = some (Value.str "post") then
        some (dictSet p.metadata "url" (Value.str p.url))
      else none) q = none := if_neg hq
  rw [List.filterMap_append, List.filterMap_append,
    @List.filterMap_cons_none _ _ (fun p : Page =>
      if dictGet p.metadata "type" = some (Value.str "post") then
        some (dictSet p.metadata "url" (Value.str p.url))
      else none) q pages₂ h]

/-- C3 (confirmed): every entry of a successful result has `type == "post"`
in its front matter, and a page without that marker is excluded silently:
removing it from the input leaves the outcome — the result list, or the
error raised — completely unchanged, so such a page can never itself raise
an error. -/
theorem c3_type_filter (pages : List Page) (limit : Option Nat) :
    (∀ l, recent_posts pages limit = Except.ok l →
      ∀ m ∈ l, dictGet m "type" = some (Value.str "post")) ∧
    (∀ pages₁ pages₂ q, pages = pages₁ ++ q :: pages₂ →
      dictGet q.metadata "type" ≠ some (Value.str "post") →
      recent_posts pages limit = recent_posts (pages₁ ++ pages₂) limit) := by
  constructor
  · intro l h m hm
    obtain ⟨p, _, hc, rfl⟩ := mem_retained_iff.mp (mem_of_recent_posts_ok h hm)
    rw [dictGet_dictSet_ne p.metadata _ (by decide)]
    exact hc
  · rintro pages₁ pages₂ q rfl hq
    unfold recent_posts
    rw [retained_drop_non_post pages₁ pages₂ q hq]

/-- Witness for `c3_type_filter`: a post plus an untyped index page; the
index page is absent from the result and dropping it changes nothing. -/
theorem c3_type_filter_witness :
    dictGet mJun "type" = some (Value.str "post") ∧
    recent_posts [pageJun, pageIdx] none = recent_posts [pageJun] none :=
  ⟨(c3_type_filter [pageJun, pageIdx] none).1 [mJun] rfl mJun (by simp),
   (c3_type_filter [pageJun, pageIdx] none).2 [pageJun] [] pageIdx rfl (by decide)⟩

/-- C4 (confirmed): a page of type `"post"` whose front matter has no `date`
key makes the call raise (`KeyError` during the sort's key extraction),
whatever the limit; the error propagates to the caller. -/
theorem c4_missing_date_error (pages : List Page) (limit : Option Nat) (p : Page)
    (hp : p ∈ pages)
    (htype : dictGet p.metadata "type" = some (Value.str "post"))
    (hdate : dictGet p.metadata "date" = none) :
    recent_posts pages limit = Except.error "KeyError: date" := by
  apply recent_posts_err_of_decorate
  apply decorate_none_iff.mpr
  refine ⟨dictSet p.metadata "url" (Value.str p.url),
    mem_retained_iff.mpr ⟨p, hp, htype, rfl⟩, ?_⟩
  rw [dictGet_dictSet_ne p.metadata _ (by decide)]
  exact hdate

/-- Witness for `c4_missing_date_error`: a dated post next to a dateless
post still makes the whole call fail. -/
theorem c4_missing_date_error_witness :
    recent_posts [pageJun, pageNoDate] none = Except.error "KeyError: date" :=
  c4_missing_date_error [pageJun, pageNoDate] none pageNoDate (by simp) rfl rfl

/-- C5 (confirmed): the scenario of the specification: three posts dated
2023-01-01, 2023-06-01, 2023-03-01 plus one non-post page; with `limit=2`
the call returns the June post then the March post. -/
theorem c5_scenario :
    recent_posts [pageJan, pageJun, pageMar, pageIdx] (some 2) = Except.ok [mJun, mMar] :=
  rfl

/-- C6 (confirmed): the selector is a pure function of the page contents and
the limit (all file reads are part of the modelled input), so two calls on
the same immutable input return identical output. -/
theorem c6_idempotent (pages₁ pages₂ : List Page) (limit₁ limit₂ : Option Nat)
    (hpages : pages₁ = pages₂) (hlimit : limit₁ = limit₂) :
    recent_posts pages₁ limit₁ = recent_posts pages₂ limit₂ := by
  rw [hpages, hlimit]

/-- Witness for `c6_idempotent`. -/
theorem c6_idempotent_witness :
    recent_posts [pageJan, pageIdx] (some 1) = recent_posts [pageJan, pageIdx] (some 1) :=
  c6_idempotent [pageJan, pageIdx] [pageJan, pageIdx] (some 1) (some 1) rfl rfl

/-- C9 (confirmed): every entry of a successful result is some retained
page's metadata with its `url` key set (overwriting any raw value) to that
page's resolved output url, and reading `url` back yields exactly that
url. -/
theorem c9_url_resolved (pages : List Page) (limit : Option Nat) (l : List Metadata)
    (h : recent_posts pages limit = Except.ok l) :
    ∀ m ∈ l, ∃ p, p ∈ pages ∧ dictGet p.metadata "type" = some (Value.str "post") ∧
      m = dictSet p.metadata "url" (Value.str p.url) ∧
      dictGet m "url" = some (Value.str p.url) := by
  intro m hm
  obtain ⟨p, hp, hc, rfl⟩ := mem_retained_iff.mp (mem_of_recent_posts_ok h hm)
  exact ⟨p, hp, hc, rfl, dictGet_dictSet_self _ _ _⟩

/-- Witness for `c9_url_resolved`: the raw front matter carried a stale
`url: stale`, and the result carries the resolved `fresh/` instead. -/
theorem c9_url_resolved_witness :
    ∃ p, p ∈ [pageRawUrl] ∧ dictGet p.metadata "type" = some (Value.str "post") ∧
      mFresh = dictSet p.metadata "url" (Value.str p.url) ∧
      dictGet mFresh "url" = some (Value.str p.url) :=
  c9_url_resolved [pageRawUrl] none [mFresh] rfl mFresh (by simp)

/-- C7 (confirmed): invoked with title `"Hello World"` and no `--date`, the
scaffolding writes to `blog/posts/hello-world.md`; the post's date defaults
to today, its `hide` flag defaults to `["navigation"]`, and the front-matter
block contains `title: Hello World`, today's date, and the `navigation`
entry under `hide`. -/
theorem c7_scaffold_hello_world (today : Date) (desc : String) :
    (mainRun ⟨"Hello World", desc, none, none⟩ today).1 = "blog/posts/hello-world.md" ∧
    (mainPost ⟨"Hello World", desc, none, none⟩ today).date = some today ∧
    (mainPost ⟨"Hello World", desc, none, none⟩ today).hide = ["navigation"] ∧
    "title: Hello World" ∈ yamlLines (mainPost ⟨"Hello World", desc, none, none⟩ today) ∧
    ("date: " ++ dateIso today) ∈ yamlLines (mainPost ⟨"Hello World", desc, none, none⟩ today) ∧
    "- navigation" ∈ yamlLines (mainPost ⟨"Hello World", desc, none, none⟩ today) := by
  refine ⟨rfl, rfl, rfl, ?_, ?_, ?_⟩ <;>
    simp [yamlLines, mainPost, postInit, yamlListLines]

/-- C8 (confirmed): with `--tags` omitted, `main` passes `tags=None`; the
post-construction normalisation touches only `date` and `hide`, so the
constructed post keeps `tags = None` and the front matter serialises it as
`tags: null` (not as an empty list). -/
theorem c8_omitted_tags_null (t d : String) (dt : Option Date) (today : Date) :
    (mainPost ⟨t, d, none, dt⟩ today).tags = none ∧
    "tags: null" ∈ yamlLines (mainPost ⟨t, d, none, dt⟩ today) := by
  refine ⟨rfl, ?_⟩
  simp [yamlLines, mainPost, postInit, yamlListLines]

/-! Lemmas on the slug pipeline. -/

theorem isWordChar_ne_hyphen {c : Nat} (h : isWordChar c = true) : c ≠ 45 := by
  simp only [isWordChar, decide_eq_true_eq] at h
  omega

/-- Every character the substitution emits is a hyphen or a word character
of the input. -/
theorem mem_subNonWord : ∀ (l : List Nat) (b : Bool) (c : Nat),
    c ∈ subNonWord b l → c = 45 ∨ (isWordChar c = true ∧ c ∈ l) := by
  intro l
  induction l with
  | nil => intro b c h; cases h
  | cons a as ih =>
      intro b c h
      by_cases hw : isWordChar a = true
      · rw [show subNonWord b (a :: as) = a :: subNonWord false as by
          simp [subNonWord, hw]] at h
        rcases List.mem_cons.mp h with rfl | h2
        · exact Or.inr ⟨hw, List.mem_cons_self _ _⟩
        · rcases ih false c h2 with h45 | ⟨hwc, hc⟩
          · exact Or.inl h45
          · exact Or.inr ⟨hwc, List.mem_cons_of_mem _ hc⟩
      · cases b with
        | true =>
            rw [show subNonWord true (a :: as) = subNonWord true as by
              simp [subNonWord, hw]] at h
            rcases ih true c h with h45 | ⟨hwc, hc⟩
            · exact Or.inl h45
            · exact Or.inr ⟨hwc, List.mem_cons_of_mem _ hc⟩
        | false =>
            rw [show subNonWord false (a :: as) = 45 :: subNonWord true as by
              simp [subNonWord, hw]] at h
            rcases List.mem_cons.mp h with rfl | h2
            · exact Or.inl rfl
            · rcases ih true c h2 with h45 | ⟨hwc, hc⟩
              · exact Or.inl h45
              · exact Or.inr ⟨hwc, List.mem_cons_of_mem _ hc⟩

/-- Inside a run, the next character the substitution emits is a word
character (the run's own hyphen was already emitted). -/
theorem head?_subNonWord_true : ∀ (l : List Nat) (c : Nat),
    (subNonWord true l).head? = some c → isWordChar c = true := by
  intro l
  induction l with
  | nil => intro c h; cases h
  | cons a as ih =>
      intro c h
      by_cases hw : isWordChar a = true
      · rw [show subNonWord true (a :: as) = a :: subNonWord false as by
          simp [subNonWord, hw], List.head?_cons] at h
        obtain rfl := Option.some_inj.mp h
        exact hw
      · rw [show subNonWord true (a :: as) = subNonWord true as by
          simp [subNonWord, hw]] at h
        exact ih c h

/-- The substitution never emits two adjacent hyphens: each maximal run of
non-word characters collapses to a single one. -/
theorem chain'_subNonWord : ∀ (l : List Nat) (b : Bool),
    List.Chain' (fun a c => ¬(a = 45 ∧ c = 45)) (subNonWord b l) := by
  intro l
  induction l with
  | nil => intro b; exact List.chain'_nil
  | cons a as ih =>
      intro b
      by_cases hw : isWordChar a = true
      · rw [show subNonWord b (a :: as) = a :: subNonWord false as by
          simp [subNonWord, hw], List.chain'_cons']
        refine ⟨?_, ih false⟩
        rintro y - ⟨ha, -⟩
        exact isWordChar_ne_hyphen hw ha
      · cases b with
        | true =>
            rw [show subNonWord true (a :: as) = subNonWord true as by
              simp [subNonWord, hw]]
            exact ih true
        | false =>
            rw [show subNonWord false (a :: as) = 45 :: subNonWord true as by
              simp [subNonWord, hw], List.chain'_cons']
            refine ⟨?_, ih true⟩
            rintro y hy ⟨-, hy45⟩
            exact isWordChar_ne_hyphen (head?_subNonWord_true as y hy) hy45

/-- The head surviving `dropWhile` refutes the predicate. -/
theorem head?_dropWhile_false {p : Nat → Bool} :
    ∀ {l : List Nat} {c : Nat}, (l.dropWhile p).head? = some c → p c = false := by
  intro l
  induction l with
  | nil => intro c h; cases h
  | cons a as ih =>
      intro c h
      rw [List.dropWhile_cons] at h
      by_cases hp : p a = true
      · rw [if_pos hp] at h
        exact ih h
      · rw [if_neg hp, List.head?_cons] at h
        obtain rfl := Option.some_inj.mp h
        simpa using hp

/-- Stripping touches only the two ends: the result is an infix. -/
theorem stripHyphens_isPart (l : List Nat) : stripHyphens l <:+: l := by
  obtain ⟨t, ht⟩ :=
    List.dropWhile_suffix (l := (l.dropWhile fun c => c == 45).reverse) (fun c => c == 45)
  obtain ⟨s, hs⟩ := List.dropWhile_suffix (l := l) (fun c => c == 45)
  refine ⟨s, t.reverse, ?_⟩
  have h2 : stripHyphens l ++ t.reverse = l.dropWhile fun c => c == 45 := by
    have h3 := congrArg List.reverse ht
    simpa [stripHyphens, List.reverse_append] using h3
  rw [List.append_assoc, h2]
  exact hs

/-- A stripped slug never starts with a hyphen. -/
theorem stripHyphens_head?_ne {l : List Nat} {c : Nat}
    (h : (stripHyphens l).head? = some c) : c ≠ 45 := by
  unfold stripHyphens at h
  rw [List.head?_reverse] at h
  obtain ⟨t, ht⟩ :=
    List.dropWhile_suffix (l := (l.dropWhile fun c => c == 45).reverse) (fun c => c == 45)
  have h1 : (l.dropWhile fun c => c == 45).reverse.getLast? = some c := by
    rw [← ht, List.getLast?_append, h]
    rfl
  rw [List.getLast?_reverse] at h1
  have h2 := head?_dropWhile_false (p := fun c => c == 45) h1
  simpa using h2

/-- A stripped slug never ends with a hyphen. -/
theorem stripHyphens_getLast?_ne {l : List Nat} {c : Nat}
    (h : (stripHyphens l).getLast? = some c) : c ≠ 45 := by
  unfold stripHyphens at h
  rw [List.getLast?_reverse] at h
  have h2 := head?_dropWhile_false (p := fun c => c == 45) h
  simpa using h2

/-- Lowercasing leaves no uppercase letter behind. -/
theorem lowerCode_not_upper (c : Nat) : ¬ (65 ≤ lowerCode c ∧ lowerCode c ≤ 90) := by
  unfold lowerCode
  split <;> omega

/-- Lowercasing keeps ASCII inputs in the ASCII range. -/
theorem lowerCode_lt_128 {a : Nat} (h : a < 128) : lowerCode a < 128 := by
  unfold lowerCode
  split <;> omega

/-- A word character surviving the lowercased ASCII input is a lowercase
letter, a digit or an underscore. -/
theorem mem_map_lowerCode_allowed {l : List Nat} {c : Nat}
    (hascii : ∀ a ∈ l, a < 128)
    (hmem : c ∈ l.map lowerCode) (hw : isWordChar c = true) :
    (97 ≤ c ∧ c ≤ 122) ∨ (48 ≤ c ∧ c ≤ 57) ∨ c = 95 := by
  obtain ⟨a, ha, rfl⟩ := List.mem_map.mp hmem
  have hu := lowerCode_not_upper a
  have h128 := lowerCode_lt_128 (hascii a ha)
  simp only [isWordChar, decide_eq_true_eq] at hw
  omega

/-- C10 counterexample: Python's `\w` is Unicode-aware, so non-ASCII word
characters survive slugification: the CJK title `"日本"` (code points
U+65E5 = 26085 and U+672C = 26412) slugifies to itself, and 26085 is neither
a lowercase letter (CJK ideographs are uncased), nor a digit, an underscore
or a hyphen — refuting the claimed character classes on this input. -/
theorem c10_counterexample :
    slugify [26085, 26412] = [26085, 26412] ∧
    ¬ (((97 : Nat) ≤ 26085 ∧ (26085 : Nat) ≤ 122) ∨
      ((48 : Nat) ≤ 26085 ∧ (26085 : Nat) ≤ 57) ∨
      (26085 : Nat) = 95 ∨ (26085 : Nat) = 45) :=
  ⟨rfl, by decide⟩

/-- C10 (amended): for ASCII input, every slug consists only of lowercase
ASCII letters, digits, underscores and hyphens, never starts or ends with a
hyphen, and never contains two adjacent hyphens — each maximal run of
non-word characters in the lowercased input collapsed to a single hyphen.
(Non-ASCII word characters such as CJK letters are kept by the program, so
the character-class bound holds only for ASCII input.) -/
theorem c10_slugify_shape (l : List Nat) (hascii : ∀ a ∈ l, a < 128) :
    (∀ c ∈ slugify l,
      (97 ≤ c ∧ c ≤ 122) ∨ (48 ≤ c ∧ c ≤ 57) ∨ c = 95 ∨ c = 45) ∧
    (∀ c, (slugify l).head? = some c → c ≠ 45) ∧
    (∀ c, (slugify l).getLast? = some c → c ≠ 45) ∧
    List.Chain' (fun a b => ¬(a = 45 ∧ b = 45)) (slugify l) := by
  refine ⟨?_, ?_, ?_, ?_⟩
  · intro c hc
    have hmem : c ∈ subNonWord false (l.map lowerCode) :=
      (stripHyphens_isPart _).subset hc
    rcases mem_subNonWord _ false c hmem with rfl | ⟨hw, hml⟩
    · exact Or.inr (Or.inr (Or.inr rfl))
    · rcases mem_map_lowerCode_allowed hascii hml hw with h | h | h
      · exact Or.inl h
      · exact Or.inr (Or.inl h)
      · exact Or.inr (Or.inr (Or.inl h))
  · exact fun c hc => stripHyphens_head?_ne hc
  · exact fun c hc => stripHyphens_getLast?_ne hc
  · exact List.Chain'.infix (chain'_subNonWord _ false) (stripHyphens_isPart _)

/-- Witness for `c10_slugify_shape`: the slug of `"Hello"` contains the
letter `h` (104), and the slug of `"!Hi"` starts with `h`, not with a
hyphen. -/
theorem c10_slugify_shape_witness :
    (((97 : Nat) ≤ 104 ∧ (104 : Nat) ≤ 122) ∨ ((48 : Nat) ≤ 104 ∧ (104 : Nat) ≤ 57) ∨
      (104 : Nat) = 95 ∨ (104 : Nat) = 45) ∧ (104 : Nat) ≠ 45 :=
  ⟨(c10_slugify_shape [72, 101, 108, 108, 111] (by decide)).1 104 (by decide),
   (c10_slugify_shape [33, 72, 105] (by decide)).2.1 104 (by decide)⟩
